import Mathlib

/-!
Verification of the socket.io chat-room server (the Node server embedded in
`src/sockets/client/src/components/chat.tsx`, lines 656-921).

The server keeps a global `rooms` map (pin to room), per-socket fields
`nickname` / `currentRoom` and, notably, a `roomTimers` map that the source
declares INSIDE the `io.on('connection', ...)` callback, so every connection
owns a separate timer map.  The model below reproduces this faithfully:

* JS `Map` objects become insertion-ordered association lists over `Nat` keys
  (`lookupL` / `insertL` / `eraseL` mirror `get` / `set` / `delete`).
* `Math.floor(100000 + Math.random() * 900000)` becomes `samplePin r` where
  `r` stands for the sampled value `Math.floor(Math.random() * 900000)`
  (a natural below 900000; the `% 900000` keeps arbitrary naturals in range).
* `setTimeout` / `clearTimeout` become explicit `Timer` records kept in a
  global `liveTimers` list plus the owner connection's `roomTimers` map;
  firing is a separate `Req.fire` step guarded by the clock `now`.
* Every socket event emitted by the server becomes an `Ev` value with an
  explicit delivery target.
-/

set_option maxHeartbeats 1000000

namespace ChatServer

/-- Chat message as sent by clients: `{ id?, author, content }`. -/
structure Message where
  id : Option String
  author : String
  content : String
deriving DecidableEq

/-- Room record stored in the server's `rooms` map: `number`, `participants`
(a `Map` from socket id to nickname), `maxParticipants`, `messages`. -/
structure Room where
  number : String
  participants : List (Nat × String)
  maxParticipants : Nat
  messages : List Message
deriving DecidableEq

/-- One armed `setTimeout` deletion timer: its handle `tid`, the connection
whose `roomTimers` map holds it, the room pin it would delete, and the
absolute time at which it may fire (`arm time + 30000`). -/
structure Timer where
  tid : Nat
  owner : Nat
  pin : Nat
  expiry : Nat
deriving DecidableEq

/-- Per-connection server state: the `socket.nickname` and
`socket.currentRoom` fields, the socket.io rooms the socket has joined, and
this connection's own `roomTimers` map (pin to timer handle) -- the source
declares `const roomTimers = new Map()` inside the connection callback. -/
structure Conn where
  nickname : String
  currentRoom : Option Nat
  joined : List Nat
  roomTimers : List (Nat × Nat)
  connected : Bool
deriving DecidableEq

/-- State of a freshly connected socket. -/
def Conn.start : Conn :=
  { nickname := "", currentRoom := none, joined := [], roomTimers := [], connected := true }

/-- Entry of the `available_rooms` payload. -/
structure AvailRoom where
  pin : Nat
  roomNumber : String
  currentParticipants : Nat
  maxParticipants : Nat
deriving DecidableEq

/-- Delivery target of an emitted event: `socket.emit` (one connection),
`io.to(pin).emit` (a socket.io room) or `io.emit` (everyone). -/
inductive Target where
  | conn : Nat → Target
  | room : Nat → Target
  | all : Target
deriving DecidableEq

/-- Events the server emits, with their payloads. -/
inductive Ev where
  | hostInfo : Nat → Ev
  | roomCreated : Nat → Nat → String → Nat → Nat → Ev
  | joinError : Nat → String → Ev
  | roomHistory : Nat → List Message → Ev
  | roomParticipants : Target → List String → Ev
  | userJoined : Nat → String → String → Nat → Nat → Ev
  | userLeft : Nat → String → String → Nat → Nat → Ev
  | receiveMessage : Nat → Message → Ev
  | availableRooms : Target → List AvailRoom → Ev
deriving DecidableEq

/-- Whole-server state: the global `rooms` map, all connections, the armed
timers, a fresh-handle counter, the clock, and the stream of values that
`Math.random()` will produce for pin generation. -/
structure ServerState where
  rooms : List (Nat × Room)
  conns : List (Nat × Conn)
  liveTimers : List Timer
  nextTid : Nat
  now : Nat
  randStream : List Nat
deriving DecidableEq

/-- Server state at process start. -/
def initState (stream : List Nat) (t0 : Nat) : ServerState :=
  { rooms := [], conns := [], liveTimers := [], nextTid := 0, now := t0, randStream := stream }

/-- `Map.get` on an insertion-ordered association list. -/
def lookupL {α : Type} : List (Nat × α) → Nat → Option α
  | [], _ => none
  | e :: rest, k => if e.1 == k then some e.2 else lookupL rest k

/-- `Map.has`. -/
def hasL {α : Type} (l : List (Nat × α)) (k : Nat) : Bool :=
  (lookupL l k).isSome

/-- `Map.set`: overwrite the entry in place if the key is present, else
append at the end (JS maps keep insertion order). -/
def insertL {α : Type} : List (Nat × α) → Nat → α → List (Nat × α)
  | [], k, v => [(k, v)]
  | e :: rest, k, v => if e.1 == k then (k, v) :: rest else e :: insertL rest k v

/-- `Map.delete`. -/
def eraseL {α : Type} (l : List (Nat × α)) (k : Nat) : List (Nat × α) :=
  l.filter (fun e => e.1 != k)

/-- `clearTimeout`: the timer with this handle can no longer fire. -/
def clearTimeout (timers : List Timer) (tid : Nat) : List Timer :=
  timers.filter (fun t => t.tid != tid)

/-- JS `str || dflt` on strings (empty string is falsy). -/
def orDefault (str dflt : String) : String :=
  if str = "" then dflt else str

/-- Join-error payload for an unknown pin (source line 769). -/
def roomNotFoundMsg : String :=
  "La sala no existe. Verifica el PIN e intenta nuevamente."

/-- Join-error payload for a full room (source line 777). -/
def roomFullMsg : String :=
  "La sala está llena. Intenta más tarde o crea una nueva sala."

/-- One candidate pin: `Math.floor(100000 + Math.random() * 900000)`, with
`r` the sampled natural below 900000. -/
def samplePin (r : Nat) : Nat :=
  100000 + r % 900000

/-- `generateUniquePin` (source lines 694-700): draw from the random stream
until the pin is not a current `rooms` key; `none` when the modelled stream
is exhausted (the source would keep looping). -/
def generateUniquePin (rooms : List (Nat × Room)) : List Nat → Option (Nat × List Nat)
  | [] => none
  | r :: rest =>
    let pin := samplePin r
    if hasL rooms pin then generateUniquePin rooms rest else some (pin, rest)

/-- `getAvailableRooms` (source lines 678-691): rooms that are not full. -/
def getAvailableRooms (rooms : List (Nat × Room)) : List AvailRoom :=
  rooms.filterMap (fun e =>
    if e.2.participants.length < e.2.maxParticipants then
      some { pin := e.1, roomNumber := e.2.number,
             currentParticipants := e.2.participants.length,
             maxParticipants := e.2.maxParticipants }
    else none)

/-- The connection record for socket `c` (fresh sockets start at `Conn.start`). -/
def getConn (s : ServerState) (c : Nat) : Conn :=
  (lookupL s.conns c).getD Conn.start

/-- `io.on('connection')`: register a fresh socket and emit `host_info`.
Transport-assigned socket ids are unique, so a reused id is a no-op. -/
def handleConnect (s : ServerState) (c : Nat) : ServerState × List Ev :=
  if hasL s.conns c then (s, [])
  else ({ s with conns := insertL s.conns c Conn.start }, [Ev.hostInfo c])

/-- `create_room` handler (source lines 726-764): allocate a pin, clear any
stale timer for it in this connection's own `roomTimers` map, create the room
with the creator as sole participant, confirm to the creator and broadcast
the new `available_rooms` list. -/
def handleCreate (s : ServerState) (c : Nat) (maxP : Nat) (roomNumber nickname : String) :
    ServerState × List Ev :=
  match generateUniquePin s.rooms s.randStream with
  | none => (s, [])
  | some (pin, rest) =>
    let conn := getConn s c
    let cleared : List Timer × List (Nat × Nat) :=
      match lookupL conn.roomTimers pin with
      | some tid => (clearTimeout s.liveTimers tid, eraseL conn.roomTimers pin)
      | none => (s.liveTimers, conn.roomTimers)
    let room1 : Room :=
      { number := orDefault roomNumber "Sin número",
        participants := insertL [] c nickname,
        maxParticipants := if maxP = 0 then 5 else maxP,
        messages := [] }
    let rooms1 := insertL s.rooms pin room1
    let conn1 : Conn :=
      { conn with
        nickname := nickname
        currentRoom := some pin
        joined := if conn.joined.contains pin then conn.joined else conn.joined ++ [pin]
        roomTimers := cleared.2 }
    ({ s with
       rooms := rooms1
       conns := insertL s.conns c conn1
       liveTimers := cleared.1
       randStream := rest },
     [Ev.roomCreated c pin roomNumber room1.participants.length room1.maxParticipants,
      Ev.availableRooms Target.all (getAvailableRooms rooms1)])

/-- Successful branch of `join_room` (source lines 781-826): cancel a pending
deletion timer found in THIS connection's `roomTimers` map, record the
participant (overwriting the nickname if the socket already is one), then
emit history, the participant list (twice, as in the source), `user_joined`
and `available_rooms`. -/
def joinSuccess (s : ServerState) (c pin : Nat) (nickname : String) (room : Room) :
    ServerState × List Ev :=
  let conn := getConn s c
  let cleared : List Timer × List (Nat × Nat) :=
    match lookupL conn.roomTimers pin with
    | some tid => (clearTimeout s.liveTimers tid, eraseL conn.roomTimers pin)
    | none => (s.liveTimers, conn.roomTimers)
  let room1 : Room := { room with participants := insertL room.participants c nickname }
  let rooms1 := insertL s.rooms pin room1
  let conn1 : Conn :=
    { conn with
      nickname := nickname
      currentRoom := some pin
      joined := if conn.joined.contains pin then conn.joined else conn.joined ++ [pin]
      roomTimers := cleared.2 }
  let names := room1.participants.map (fun e => e.2)
  ({ s with
     rooms := rooms1
     conns := insertL s.conns c conn1
     liveTimers := cleared.1 },
   [Ev.roomHistory c room.messages,
    Ev.roomParticipants (Target.room pin) names,
    Ev.roomParticipants (Target.room pin) names,
    Ev.userJoined pin nickname (orDefault room.number "Sin número")
      room1.participants.length room.maxParticipants,
    Ev.availableRooms Target.all (getAvailableRooms rooms1)])

/-- `join_room` handler (source lines 766-827): unknown pin and full room
each answer `join_error` to the requester and touch nothing. -/
def handleJoin (s : ServerState) (c pin : Nat) (nickname : String) : ServerState × List Ev :=
  match lookupL s.rooms pin with
  | none => (s, [Ev.joinError c roomNotFoundMsg])
  | some room =>
    if room.maxParticipants ≤ room.participants.length then
      (s, [Ev.joinError c roomFullMsg])
    else joinSuccess s c pin nickname room

/-- `send_message` handler (source lines 830-840): with no current room, or a
current room pin no longer in `rooms`, the message is silently dropped;
otherwise it is appended to the room's log and broadcast to the room. -/
def handleSend (s : ServerState) (c : Nat) (m : Message) : ServerState × List Ev :=
  match (getConn s c).currentRoom with
  | none => (s, [])
  | some pin =>
    match lookupL s.rooms pin with
    | none => (s, [])
    | some room =>
      let room1 : Room := { room with messages := room.messages ++ [m] }
      ({ s with rooms := insertL s.rooms pin room1 }, [Ev.receiveMessage pin m])

/-- `leaveCurrentRoom` (source lines 849-910): remove the participant, notify
the room, and when the room became empty clear any old own timer for the pin
and arm a fresh 30000 ms deletion timer in this connection's map. -/
def handleLeave (s : ServerState) (c : Nat) : ServerState × List Ev :=
  let conn := getConn s c
  match conn.currentRoom with
  | none => (s, [])
  | some pin =>
    match lookupL s.rooms pin with
    | none => (s, [])
    | some room =>
      let parts1 := eraseL room.participants c
      let room1 : Room := { room with participants := parts1 }
      let rooms1 := insertL s.rooms pin room1
      let names := parts1.map (fun e => e.2)
      let evs0 := [Ev.userLeft pin conn.nickname (orDefault room.number "Sin número")
                     parts1.length room.maxParticipants,
                   Ev.roomParticipants (Target.room pin) names]
      if parts1.length = 0 then
        let live1 := match lookupL conn.roomTimers pin with
          | some tid => clearTimeout s.liveTimers tid
          | none => s.liveTimers
        let timer : Timer := { tid := s.nextTid, owner := c, pin := pin, expiry := s.now + 30000 }
        let conn1 : Conn :=
          { conn with
            currentRoom := none
            joined := conn.joined.filter (fun q => q != pin)
            roomTimers := insertL conn.roomTimers pin s.nextTid }
        ({ s with
           rooms := rooms1
           conns := insertL s.conns c conn1
           liveTimers := live1 ++ [timer]
           nextTid := s.nextTid + 1 },
         evs0 ++ [Ev.availableRooms Target.all (getAvailableRooms rooms1)])
      else
        let conn1 : Conn :=
          { conn with
            currentRoom := none
            joined := conn.joined.filter (fun q => q != pin) }
        ({ s with rooms := rooms1, conns := insertL s.conns c conn1 },
         evs0 ++ [Ev.availableRooms Target.all (getAvailableRooms rooms1)])

/-- `disconnect` handler (source lines 912-915): same effects as leaving,
then the socket is gone. -/
def handleDisconnect (s : ServerState) (c : Nat) : ServerState × List Ev :=
  let s1 := (handleLeave s c).1
  let conn := getConn s1 c
  ({ s1 with conns := insertL s1.conns c { conn with connected := false } },
   (handleLeave s c).2)

/-- Expiry callback of the deletion timer (source lines 885-895): a live
timer may fire once the clock reached its expiry; it re-checks that the room
still exists and is still empty before deleting it. -/
def handleFire (s : ServerState) (tid : Nat) : ServerState × List Ev :=
  match s.liveTimers.find? (fun t => t.tid == tid) with
  | none => (s, [])
  | some t =>
    if s.now < t.expiry then (s, [])
    else
      let live1 := clearTimeout s.liveTimers tid
      match lookupL s.rooms t.pin with
      | none => ({ s with liveTimers := live1 }, [])
      | some room =>
        if room.participants.length = 0 then
          let rooms1 := eraseL s.rooms t.pin
          let owner := getConn s t.owner
          let owner1 : Conn := { owner with roomTimers := eraseL owner.roomTimers t.pin }
          ({ s with
             rooms := rooms1
             conns := insertL s.conns t.owner owner1
             liveTimers := live1 },
           [Ev.availableRooms Target.all (getAvailableRooms rooms1)])
        else ({ s with liveTimers := live1 }, [])

/-- `get_available_rooms` handler (source lines 712-714). -/
def handleGetAvail (s : ServerState) (c : Nat) : ServerState × List Ev :=
  (s, [Ev.availableRooms (Target.conn c) (getAvailableRooms s.rooms)])

/-- `get_room_participants` handler (source lines 717-725). -/
def handleGetParticipants (s : ServerState) (c : Nat) : ServerState × List Ev :=
  match (getConn s c).currentRoom with
  | none => (s, [])
  | some pin =>
    match lookupL s.rooms pin with
    | none => (s, [])
    | some room =>
      (s, [Ev.roomParticipants (Target.conn c) (room.participants.map (fun e => e.2))])

/-- Inbound events processed by the server, plus clock progress and timer
expiry (the only time-triggered action). -/
inductive Req where
  | connect : Nat → Req
  | createRoom : Nat → Nat → String → String → Req
  | joinRoom : Nat → Nat → String → Req
  | sendMessage : Nat → Message → Req
  | leaveRoom : Nat → Req
  | disconnect : Nat → Req
  | getAvail : Nat → Req
  | getParticipants : Nat → Req
  | fire : Nat → Req
  | elapse : Nat → Req
deriving DecidableEq

/-- One step of the server: dispatch the request to its handler. -/
def stepF (s : ServerState) : Req → ServerState × List Ev
  | Req.connect c => handleConnect s c
  | Req.createRoom c maxP roomNumber nickname => handleCreate s c maxP roomNumber nickname
  | Req.joinRoom c pin nickname => handleJoin s c pin nickname
  | Req.sendMessage c m => handleSend s c m
  | Req.leaveRoom c => handleLeave s c
  | Req.disconnect c => handleDisconnect s c
  | Req.getAvail c => handleGetAvail s c
  | Req.getParticipants c => handleGetParticipants s c
  | Req.fire tid => handleFire s tid
  | Req.elapse d => ({ s with now := s.now + d }, [])

/-- Run a sequence of requests, keeping only the resulting state. -/
def run (s : ServerState) (l : List Req) : ServerState :=
  l.foldl (fun t r => (stepF t r).1) s

/-- States the server can reach from process start. -/
inductive Reach : ServerState → Prop
  | start (stream : List Nat) (t0 : Nat) : Reach (initState stream t0)
  | next {s : ServerState} (r : Req) : Reach s → Reach (stepF s r).1

/-- Room well-formedness: within capacity, and capacity at least 1 (the
server stores `maxParticipants || 5`, never 0). -/
def RoomOK (r : Room) : Prop :=
  r.participants.length ≤ r.maxParticipants ∧ 1 ≤ r.maxParticipants

/-- Registry invariant: live pins are pairwise distinct and every live room
is well-formed. -/
def Inv (s : ServerState) : Prop :=
  (s.rooms.map Prod.fst).Nodup ∧ ∀ e ∈ s.rooms, RoomOK e.2

/-- How a single server step may change the `rooms` registry: unchanged, a
fresh well-formed room under a pin that was free, an in-place update of one
room that keeps its capacity and number and only appends to its message log
while respecting capacity, or the removal of one pin. -/
def RoomsDelta (old new : List (Nat × Room)) : Prop :=
  new = old
  ∨ (∃ pin room, lookupL old pin = none ∧ RoomOK room ∧ new = insertL old pin room)
  ∨ (∃ pin room room', lookupL old pin = some room ∧ new = insertL old pin room' ∧
      room'.maxParticipants = room.maxParticipants ∧ room'.number = room.number ∧
      (∃ tail, room'.messages = room.messages ++ tail) ∧
      (room'.participants.length ≤ room.participants.length ∨
        room'.participants.length ≤ room.maxParticipants))
  ∨ (∃ pin, new = eraseL old pin)

/-- Message used in the concrete executions below. -/
def msgA : Message := { id := some "m1", author := "alice", content := "hola" }

/-- Room contents after the `demoFull` run below. -/
def demoRoom : Room :=
  { number := "7", participants := [(1, "alice"), (2, "bob")], maxParticipants := 2,
    messages := [] }

/-- Concrete run: alice creates a 2-seat room (pin 100000), bob joins, a
third socket connects; the room is now at capacity. -/
def demoFull : ServerState :=
  run (initState [0] 0)
    [Req.connect 1, Req.createRoom 1 2 "7" "alice", Req.connect 2,
     Req.joinRoom 2 100000 "bob", Req.connect 3]

/-- Concrete run for the room-lifecycle claims: room 100000 is created and
used, one message is exchanged, then both members leave; the last leaver
(connection 2) arms the 30000 ms deletion timer. -/
def c3Trace : List Req :=
  [Req.connect 1, Req.createRoom 1 2 "7" "alice", Req.connect 2,
   Req.joinRoom 2 100000 "bob", Req.sendMessage 1 msgA,
   Req.leaveRoom 1, Req.leaveRoom 2]

/-- State right after the room emptied and connection 2's timer was armed. -/
def c3Empty : ServerState := run (initState [0] 0) c3Trace

/-- Connection 1 rejoins pin 100000 before the timer expires. -/
def c3Rejoined : ServerState := (stepF c3Empty (Req.joinRoom 1 100000 "alice")).1

/-- Nobody rejoins: the grace period passes and the timer fires. -/
def c3Expired : ServerState := run c3Empty [Req.elapse 30000, Req.fire 0]

/-- Concrete run for the one-timer-per-pin claim: connection 1 creates room
100000 and leaves (arming its own timer), then connection 2 joins the still
existing empty room and leaves as well (arming a second timer). -/
def c4State : ServerState :=
  run (initState [0] 0)
    [Req.connect 1, Req.createRoom 1 2 "7" "alice", Req.leaveRoom 1,
     Req.connect 2, Req.joinRoom 2 100000 "bob", Req.leaveRoom 2]

/-- Concrete run for the capacity-range claim: a room created with
`maxParticipants = 100` in the request. -/
def c8State : ServerState :=
  run (initState [0] 0) [Req.connect 1, Req.createRoom 1 100 "7" "a"]

/-- Running any request sequence preserves reachability. -/
theorem Reach.run {s : ServerState} (h : Reach s) (l : List Req) : Reach (ChatServer.run s l) := by
  induction l generalizing s with
  | nil => exact h
  | cons r rest ih => exact ih (h.next r)

theorem lookupL_insertL_self {α : Type} (l : List (Nat × α)) (k : Nat) (v : α) :
    lookupL (insertL l k v) k = some v := by
  induction l with
  | nil => simp [insertL, lookupL]
  | cons e rest ih =>
    by_cases h : e.1 = k
    · simp [insertL, lookupL, h]
    · simp [insertL, lookupL, h, ih]

theorem lookupL_insertL_ne {α : Type} (l : List (Nat × α)) (k : Nat) (v : α) {k' : Nat}
    (h : k' ≠ k) : lookupL (insertL l k v) k' = lookupL l k' := by
  induction l with
  | nil => simp [insertL, lookupL, Ne.symm h]
  | cons e rest ih =>
    by_cases he : e.1 = k
    · simp [insertL, lookupL, he, Ne.symm h]
    · by_cases he' : e.1 = k'
      · simp [insertL, lookupL, he, he', h]
      · simp [insertL, lookupL, he, he', ih]

theorem mem_insertL {α : Type} {l : List (Nat × α)} {k : Nat} {v : α} {e : Nat × α}
    (h : e ∈ insertL l k v) : e = (k, v) ∨ e ∈ l := by
  induction l with
  | nil => simpa [insertL] using h
  | cons e' rest ih =>
    by_cases he : e'.1 = k
    · simp only [insertL, he, beq_self_eq_true, if_true] at h
      rcases List.mem_cons.mp h with h | h
      · exact Or.inl h
      · exact Or.inr (List.mem_cons_of_mem _ h)
    · simp only [insertL, beq_iff_eq, he, if_false] at h
      rcases List.mem_cons.mp h with h | h
      · exact Or.inr (by simp [h])
      · rcases ih h with h1 | h1
        · exact Or.inl h1
        · exact Or.inr (List.mem_cons_of_mem _ h1)

theorem length_insertL {α : Type} (l : List (Nat × α)) (k : Nat) (v : α) :
    (insertL l k v).length = if hasL l k then l.length else l.length + 1 := by
  induction l with
  | nil => simp [insertL, hasL, lookupL]
  | cons e rest ih =>
    by_cases he : e.1 = k
    · simp [insertL, hasL, lookupL, he]
    · simp only [insertL, beq_iff_eq, he, if_false, List.length_cons, ih, hasL, lookupL]
      by_cases hr : (lookupL rest k).isSome
      · simp [hr]
      · simp [hr]

theorem keys_insertL {α : Type} (l : List (Nat × α)) (k : Nat) (v : α) :
    (insertL l k v).map Prod.fst =
      if hasL l k then l.map Prod.fst else l.map Prod.fst ++ [k] := by
  induction l with
  | nil => simp [insertL, hasL, lookupL]
  | cons e rest ih =>
    by_cases he : e.1 = k
    · simp [insertL, hasL, lookupL, he]
    · simp only [insertL, beq_iff_eq, he, if_false, List.map_cons, ih, hasL, lookupL]
      by_cases hr : (lookupL rest k).isSome
      · simp [hr]
      · simp [hr]

theorem not_mem_keys {α : Type} {l : List (Nat × α)} {k : Nat}
    (h : lookupL l k = none) : k ∉ l.map Prod.fst := by
  induction l with
  | nil => simp
  | cons e rest ih =>
    by_cases he : e.1 = k
    · simp [lookupL, he] at h
    · simp only [lookupL, beq_iff_eq, he, if_false] at h
      simp only [List.map_cons, List.mem_cons]
      rintro (h1 | h1)
      · exact he h1.symm
      · exact ih h h1

theorem lookupL_mem {α : Type} {l : List (Nat × α)} {k : Nat} {v : α}
    (h : lookupL l k = some v) : (k, v) ∈ l := by
  induction l with
  | nil => simp [lookupL] at h
  | cons e rest ih =>
    by_cases he : e.1 = k
    · simp only [lookupL, beq_iff_eq, he, if_true] at h
      have hev : e = (k, v) := by
        cases e
        simp_all
      rw [hev]
      exact List.mem_cons_self _ _
    · simp only [lookupL, beq_iff_eq, he, if_false] at h
      exact List.mem_cons_of_mem _ (ih h)

theorem mem_eraseL {α : Type} {l : List (Nat × α)} {k : Nat} {e : Nat × α}
    (h : e ∈ eraseL l k) : e ∈ l :=
  List.mem_of_mem_filter h

theorem length_eraseL_le {α : Type} (l : List (Nat × α)) (k : Nat) :
    (eraseL l k).length ≤ l.length :=
  List.length_filter_le _ _

theorem keys_eraseL_sublist {α : Type} (l : List (Nat × α)) (k : Nat) :
    ((eraseL l k).map Prod.fst).Sublist (l.map Prod.fst) :=
  (List.filter_sublist l).map Prod.fst

theorem lookupL_eraseL_self {α : Type} (l : List (Nat × α)) (k : Nat) :
    lookupL (eraseL l k) k = none := by
  induction l with
  | nil => simp [eraseL, lookupL]
  | cons e rest ih =>
    by_cases he : e.1 = k
    · simpa [eraseL, List.filter_cons, he] using ih
    · simpa [eraseL, List.filter_cons, he, lookupL] using ih

theorem lookupL_eraseL_ne {α : Type} (l : List (Nat × α)) (k : Nat) {k' : Nat}
    (h : k' ≠ k) : lookupL (eraseL l k) k' = lookupL l k' := by
  induction l with
  | nil => simp [eraseL, lookupL]
  | cons e rest ih =>
    have ih' : lookupL (List.filter (fun e => e.1 != k) rest) k' = lookupL rest k' := ih
    by_cases he : e.1 = k
    · simp [eraseL, List.filter_cons, he, lookupL, Ne.symm h, ih']
    · by_cases he' : e.1 = k'
      · simp [eraseL, List.filter_cons, he, lookupL, he', h]
      · simp [eraseL, List.filter_cons, he, lookupL, he', ih']

theorem samplePin_ge (r : Nat) : 100000 ≤ samplePin r := by
  unfold samplePin
  omega

theorem samplePin_le (r : Nat) : samplePin r ≤ 999999 := by
  unfold samplePin
  have : r % 900000 < 900000 := Nat.mod_lt r (by omega)
  omega

theorem generateUniquePin_fresh {rooms : List (Nat × Room)} {stream : List Nat}
    {pin : Nat} {rest : List Nat}
    (h : generateUniquePin rooms stream = some (pin, rest)) :
    lookupL rooms pin = none := by
  induction stream with
  | nil => simp [generateUniquePin] at h
  | cons r tail ih =>
    simp only [generateUniquePin] at h
    by_cases hh : hasL rooms (samplePin r) = true
    · rw [if_pos hh] at h
      exact ih h
    · rw [if_neg hh] at h
      simp only [Option.some.injEq, Prod.mk.injEq] at h
      obtain ⟨h1, -⟩ := h
      subst h1
      cases hl : lookupL rooms (samplePin r) with
      | none => rfl
      | some v => simp [hasL, hl] at hh

theorem generateUniquePin_range {rooms : List (Nat × Room)} {stream : List Nat}
    {pin : Nat} {rest : List Nat}
    (h : generateUniquePin rooms stream = some (pin, rest)) :
    100000 ≤ pin ∧ pin ≤ 999999 := by
  induction stream with
  | nil => simp [generateUniquePin] at h
  | cons r tail ih =>
    simp only [generateUniquePin] at h
    by_cases hh : hasL rooms (samplePin r) = true
    · rw [if_pos hh] at h
      exact ih h
    · rw [if_neg hh] at h
      simp only [Option.some.injEq, Prod.mk.injEq] at h
      obtain ⟨h1, -⟩ := h
      subst h1
      exact ⟨samplePin_ge r, samplePin_le r⟩

theorem handleConnect_rooms (s : ServerState) (c : Nat) :
    (handleConnect s c).1.rooms = s.rooms := by
  by_cases h : hasL s.conns c = true
  · simp [handleConnect, h]
  · simp [handleConnect, h]

theorem handleCreate_delta (s : ServerState) (c maxP : Nat) (rn n : String) :
    RoomsDelta s.rooms (handleCreate s c maxP rn n).1.rooms := by
  cases halloc : generateUniquePin s.rooms s.randStream with
  | none => exact Or.inl (by simp only [handleCreate, halloc])
  | some pr =>
    obtain ⟨pin, rest⟩ := pr
    refine Or.inr (Or.inl ⟨pin,
      { number := orDefault rn "Sin número", participants := insertL [] c n,
        maxParticipants := if maxP = 0 then 5 else maxP, messages := [] },
      generateUniquePin_fresh halloc, ⟨?_, ?_⟩, ?_⟩)
    · show (insertL [] c n).length ≤ (if maxP = 0 then 5 else maxP)
      by_cases hm : maxP = 0
      · simp [insertL, hm]
      · simp only [insertL, List.length_singleton, if_neg hm]
        omega
    · show (1 : Nat) ≤ (if maxP = 0 then 5 else maxP)
      by_cases hm : maxP = 0
      · simp [hm]
      · rw [if_neg hm]
        omega
    · simp only [handleCreate, halloc]

theorem handleJoin_delta (s : ServerState) (c pin : Nat) (n : String) :
    RoomsDelta s.rooms (handleJoin s c pin n).1.rooms := by
  cases hroom : lookupL s.rooms pin with
  | none => exact Or.inl (by simp only [handleJoin, hroom])
  | some room =>
    by_cases hfull : room.maxParticipants ≤ room.participants.length
    · refine Or.inl ?_
      simp only [handleJoin, hroom]
      rw [if_pos hfull]
    · refine Or.inr (Or.inr (Or.inl ⟨pin, room,
        { room with participants := insertL room.participants c n },
        hroom, ?_, rfl, rfl, ⟨[], by simp⟩, ?_⟩))
      · simp only [handleJoin, hroom]
        rw [if_neg hfull]
        rfl
      · show (insertL room.participants c n).length ≤ room.participants.length ∨
          (insertL room.participants c n).length ≤ room.maxParticipants
        rw [length_insertL]
        by_cases hc : hasL room.participants c = true
        · rw [if_pos hc]
          exact Or.inl le_rfl
        · rw [if_neg hc]
          exact Or.inr (by omega)

theorem handleSend_delta (s : ServerState) (c : Nat) (m : Message) :
    RoomsDelta s.rooms (handleSend s c m).1.rooms := by
  cases hcur : (getConn s c).currentRoom with
  | none => exact Or.inl (by simp only [handleSend, hcur])
  | some pin =>
    cases hroom : lookupL s.rooms pin with
    | none => exact Or.inl (by simp only [handleSend, hcur, hroom])
    | some room =>
      refine Or.inr (Or.inr (Or.inl ⟨pin, room,
        { room with messages := room.messages ++ [m] },
        hroom, ?_, rfl, rfl, ⟨[m], rfl⟩, Or.inl le_rfl⟩))
      simp only [handleSend, hcur, hroom]

theorem handleLeave_delta (s : ServerState) (c : Nat) :
    RoomsDelta s.rooms (handleLeave s c).1.rooms := by
  cases hcur : (getConn s c).currentRoom with
  | none => exact Or.inl (by simp only [handleLeave, hcur])
  | some pin =>
    cases hroom : lookupL s.rooms pin with
    | none => exact Or.inl (by simp only [handleLeave, hcur, hroom])
    | some room =>
      by_cases hz : (eraseL room.participants c).length = 0
      · refine Or.inr (Or.inr (Or.inl ⟨pin, room,
          { room with participants := eraseL room.participants c },
          hroom, ?_, rfl, rfl, ⟨[], by simp⟩, Or.inl (length_eraseL_le _ _)⟩))
        simp only [handleLeave, hcur, hroom]
        rw [if_pos hz]
      · refine Or.inr (Or.inr (Or.inl ⟨pin, room,
          { room with participants := eraseL room.participants c },
          hroom, ?_, rfl, rfl, ⟨[], by simp⟩, Or.inl (length_eraseL_le _ _)⟩))
        simp only [handleLeave, hcur, hroom]
        rw [if_neg hz]

theorem handleDisconnect_rooms (s : ServerState) (c : Nat) :
    (handleDisconnect s c).1.rooms = (handleLeave s c).1.rooms := rfl

theorem handleFire_delta (s : ServerState) (tid : Nat) :
    RoomsDelta s.rooms (handleFire s tid).1.rooms := by
  cases hfind : s.liveTimers.find? (fun t => t.tid == tid) with
  | none => exact Or.inl (by simp only [handleFire, hfind])
  | some t =>
    by_cases hearly : s.now < t.expiry
    · refine Or.inl ?_
      simp only [handleFire, hfind]
      rw [if_pos hearly]
    · cases hroom : lookupL s.rooms t.pin with
      | none =>
        refine Or.inl ?_
        simp only [handleFire, hfind, hroom]
        rw [if_neg hearly]
      | some room =>
        by_cases hz : room.participants.length = 0
        · refine Or.inr (Or.inr (Or.inr ⟨t.pin, ?_⟩))
          simp only [handleFire, hfind, hroom]
          rw [if_neg hearly, if_pos hz]
        · refine Or.inl ?_
          simp only [handleFire, hfind, hroom]
          rw [if_neg hearly, if_neg hz]

theorem handleGetParticipants_rooms (s : ServerState) (c : Nat) :
    (handleGetParticipants s c).1.rooms = s.rooms := by
  cases hcur : (getConn s c).currentRoom with
  | none => simp only [handleGetParticipants, hcur]
  | some pin =>
    cases hroom : lookupL s.rooms pin with
    | none => simp only [handleGetParticipants, hcur, hroom]
    | some room => simp only [handleGetParticipants, hcur, hroom]

theorem stepF_delta (s : ServerState) (r : Req) :
    RoomsDelta s.rooms (stepF s r).1.rooms := by
  cases r with
  | connect c => exact Or.inl (handleConnect_rooms s c)
  | createRoom c maxP rn n => exact handleCreate_delta s c maxP rn n
  | joinRoom c pin n => exact handleJoin_delta s c pin n
  | sendMessage c m => exact handleSend_delta s c m
  | leaveRoom c => exact handleLeave_delta s c
  | disconnect c => exact (handleDisconnect_rooms s c) ▸ handleLeave_delta s c
  | getAvail c => exact Or.inl rfl
  | getParticipants c => exact Or.inl (handleGetParticipants_rooms s c)
  | fire tid => exact handleFire_delta s tid
  | elapse d => exact Or.inl rfl

theorem inv_delta {old new : List (Nat × Room)} (h : RoomsDelta old new)
    (hnd : (old.map Prod.fst).Nodup) (hok : ∀ e ∈ old, RoomOK e.2) :
    (new.map Prod.fst).Nodup ∧ ∀ e ∈ new, RoomOK e.2 := by
  rcases h with h | ⟨pin, room, hfresh, hOK, h⟩ |
      ⟨pin, room, room', hsome, h, hmax, hnum, htail, hlen⟩ | ⟨pin, h⟩
  · subst h
    exact ⟨hnd, hok⟩
  · subst h
    constructor
    · rw [keys_insertL]
      have hfalse : hasL old pin = false := by simp [hasL, hfresh]
      rw [hfalse]
      simp only [Bool.false_eq_true, if_false]
      refine List.Nodup.append hnd (List.nodup_singleton pin) ?_
      intro a ha hb
      rw [List.mem_singleton] at hb
      exact not_mem_keys hfresh (hb ▸ ha)
    · intro e he
      rcases mem_insertL he with he | he
      · rw [he]
        exact hOK
      · exact hok e he
  · subst h
    constructor
    · rw [keys_insertL]
      have htrue : hasL old pin = true := by simp [hasL, hsome]
      rw [htrue]
      simpa using hnd
    · intro e he
      rcases mem_insertL he with he | he
      · rw [he]
        have hold := hok (pin, room) (lookupL_mem hsome)
        obtain ⟨h1, h2⟩ := hold
        refine ⟨?_, hmax ▸ h2⟩
        rw [hmax]
        rcases hlen with hl | hl
        · exact le_trans hl h1
        · exact hl
      · exact hok e he
  · subst h
    exact ⟨hnd.sublist (keys_eraseL_sublist old pin), fun e he => hok e (mem_eraseL he)⟩

theorem inv_step (s : ServerState) (r : Req) (h : Inv s) : Inv (stepF s r).1 :=
  inv_delta (stepF_delta s r) h.1 h.2

theorem reach_inv {s : ServerState} (h : Reach s) : Inv s := by
  induction h with
  | start stream t0 => exact ⟨by simp [initState], by simp [initState]⟩
  | next r hr ih => exact inv_step _ r ih

theorem step_room_stable (s : ServerState) (r : Req) (p : Nat) (room room' : Room)
    (h : lookupL s.rooms p = some room) (h' : lookupL (stepF s r).1.rooms p = some room') :
    room'.maxParticipants = room.maxParticipants ∧ room'.number = room.number ∧
    ∃ tail, room'.messages = room.messages ++ tail := by
  rcases stepF_delta s r with hd | ⟨pin, rm, hfresh, hOK, hd⟩ |
      ⟨pin, rm, rm', hsome, hd, hmax, hnum, htail, hlen⟩ | ⟨pin, hd⟩
  · rw [hd, h] at h'
    obtain rfl := Option.some.inj h'
    exact ⟨rfl, rfl, [], by simp⟩
  · rw [hd] at h'
    by_cases hp : p = pin
    · rw [hp, hfresh] at h
      exact absurd h (by simp)
    · rw [lookupL_insertL_ne _ _ _ hp, h] at h'
      obtain rfl := Option.some.inj h'
      exact ⟨rfl, rfl, [], by simp⟩
  · rw [hd] at h'
    by_cases hp : p = pin
    · rw [hp] at h h'
      rw [lookupL_insertL_self] at h'
      rw [hsome] at h
      obtain rfl := Option.some.inj h
      obtain rfl := Option.some.inj h'
      exact ⟨hmax, hnum, htail⟩
    · rw [lookupL_insertL_ne _ _ _ hp, h] at h'
      obtain rfl := Option.some.inj h'
      exact ⟨rfl, rfl, [], by simp⟩
  · rw [hd] at h'
    by_cases hp : p = pin
    · rw [hp, lookupL_eraseL_self] at h'
      exact absurd h' (by simp)
    · rw [lookupL_eraseL_ne _ _ hp, h] at h'
      obtain rfl := Option.some.inj h'
      exact ⟨rfl, rfl, [], by simp⟩

theorem demoFull_reach : Reach demoFull :=
  (Reach.start [0] 0).run
    [Req.connect 1, Req.createRoom 1 2 "7" "alice", Req.connect 2,
     Req.joinRoom 2 100000 "bob", Req.connect 3]

/-- C1: in every reachable server state every room's participant count is at
most its `maxParticipants`; and a `join_room` request for a room whose
participant count equals `maxParticipants` answers the room-full
`join_error` to the requester and leaves the whole server state -- in
particular the room's participant map and message log -- unchanged. -/
theorem c1_capacity (s : ServerState) (h : Reach s) :
    (∀ e ∈ s.rooms, e.2.participants.length ≤ e.2.maxParticipants) ∧
    (∀ c pin nick room, lookupL s.rooms pin = some room →
      room.participants.length = room.maxParticipants →
      stepF s (Req.joinRoom c pin nick) = (s, [Ev.joinError c roomFullMsg])) := by
  refine ⟨fun e he => ((reach_inv h).2 e he).1, ?_⟩
  intro c pin nick room hroom hfull
  show handleJoin s c pin nick = _
  simp only [handleJoin, hroom]
  rw [if_pos (le_of_eq hfull.symm)]

/-- C1 witness: in the concrete reachable state `demoFull` the 2-seat room
100000 holds alice and bob; carol's join is rejected with the room-full
error and the state is untouched. -/
theorem c1_capacity_witness :
    stepF demoFull (Req.joinRoom 3 100000 "carol") =
      (demoFull, [Ev.joinError 3 roomFullMsg]) :=
  (c1_capacity demoFull demoFull_reach).2 3 100000 "carol" demoRoom rfl rfl

/-- C2: in every reachable state the pins of live rooms are pairwise
distinct, and the pin the allocator would hand to the next `create_room` is
not the pin of any live room; hence a pin is never reused while its room is
live. -/
theorem c2_pins_distinct (s : ServerState) (h : Reach s) :
    (s.rooms.map Prod.fst).Nodup ∧
    (∀ pin rest, generateUniquePin s.rooms s.randStream = some (pin, rest) →
      lookupL s.rooms pin = none) :=
  ⟨(reach_inv h).1, fun _ _ hgen => generateUniquePin_fresh hgen⟩

/-- C2 witness: the live pins of the concrete reachable state `demoFull`
are pairwise distinct. -/
theorem c2_pins_distinct_witness : (demoFull.rooms.map Prod.fst).Nodup :=
  (c2_pins_distinct demoFull demoFull_reach).1

/-- C5: a `send_message` from a member of a live room appends the message at
the end of that room's log and broadcasts exactly it to the room; a
successful join replays, first, exactly the room's pre-join message
sequence; and no step ever edits a surviving room's log other than by
appending -- so broadcast order equals send order and late joiners see the
exact prior sequence. -/
theorem c5_message_order (s : ServerState) :
    (∀ c m pin room, (getConn s c).currentRoom = some pin →
      lookupL s.rooms pin = some room →
      lookupL (stepF s (Req.sendMessage c m)).1.rooms pin =
        some { room with messages := room.messages ++ [m] } ∧
      (stepF s (Req.sendMessage c m)).2 = [Ev.receiveMessage pin m]) ∧
    (∀ c pin nick room, lookupL s.rooms pin = some room →
      room.participants.length < room.maxParticipants →
      (stepF s (Req.joinRoom c pin nick)).2.head? =
        some (Ev.roomHistory c room.messages)) ∧
    (∀ r p room room', lookupL s.rooms p = some room →
      lookupL (stepF s r).1.rooms p = some room' →
      ∃ tail, room'.messages = room.messages ++ tail) := by
  refine ⟨?_, ?_, ?_⟩
  · intro c m pin room hcur hroom
    have hstep : stepF s (Req.sendMessage c m) =
        ({ s with rooms := insertL s.rooms pin { room with messages := room.messages ++ [m] } },
         [Ev.receiveMessage pin m]) := by
      show handleSend s c m = _
      simp only [handleSend, hcur, hroom]
    rw [hstep]
    exact ⟨lookupL_insertL_self _ _ _, rfl⟩
  · intro c pin nick room hroom hlt
    have hstep : stepF s (Req.joinRoom c pin nick) = joinSuccess s c pin nick room := by
      show handleJoin s c pin nick = _
      simp only [handleJoin, hroom]
      rw [if_neg (not_le.mpr hlt)]
    rw [hstep]
    rfl
  · intro r p room room' h h'
    exact (step_room_stable s r p room room' h h').2.2

/-- C5 witness: in `demoFull`, alice's `send_message` stores `msgA` as the
room's whole log and broadcasts exactly it to room 100000. -/
theorem c5_message_order_witness :
    lookupL (stepF demoFull (Req.sendMessage 1 msgA)).1.rooms 100000 =
      some { number := "7", participants := [(1, "alice"), (2, "bob")],
             maxParticipants := 2, messages := [msgA] } ∧
    (stepF demoFull (Req.sendMessage 1 msgA)).2 = [Ev.receiveMessage 100000 msgA] :=
  (c5_message_order demoFull).1 1 msgA 100000 demoRoom rfl rfl

/-- C6: joining an unknown pin fails with the room-not-found `join_error`
sent to the requesting connection only, and a full room fails with the
room-full `join_error`; in both cases the returned state is exactly the old
one, so no session-room association, room, participant map, message log or
timer is touched. -/
theorem c6_join_errors (s : ServerState) (c pin : Nat) (nick : String) :
    (lookupL s.rooms pin = none →
      stepF s (Req.joinRoom c pin nick) = (s, [Ev.joinError c roomNotFoundMsg])) ∧
    (∀ room, lookupL s.rooms pin = some room →
      room.maxParticipants ≤ room.participants.length →
      stepF s (Req.joinRoom c pin nick) = (s, [Ev.joinError c roomFullMsg])) := by
  constructor
  · intro h
    show handleJoin s c pin nick = _
    simp only [handleJoin, h]
  · intro room h hfull
    show handleJoin s c pin nick = _
    simp only [handleJoin, h]
    rw [if_pos hfull]

/-- C6 witness: joining pin 100000 on a freshly started server answers the
room-not-found error and changes nothing. -/
theorem c6_join_errors_witness :
    stepF (initState [] 0) (Req.joinRoom 1 100000 "a") =
      (initState [] 0, [Ev.joinError 1 roomNotFoundMsg]) :=
  (c6_join_errors (initState [] 0) 1 100000 "a").1 rfl

/-- C7: a `send_message` from a connection with no current room, or whose
current room pin is no longer registered, is silently dropped (no event, no
state change); from a member of a live room it appends the message to that
room's log and broadcasts `receive_message` to the room. -/
theorem c7_send_silent_drop (s : ServerState) (c : Nat) (m : Message) :
    ((getConn s c).currentRoom = none → stepF s (Req.sendMessage c m) = (s, [])) ∧
    (∀ pin, (getConn s c).currentRoom = some pin → lookupL s.rooms pin = none →
      stepF s (Req.sendMessage c m) = (s, [])) ∧
    (∀ pin room, (getConn s c).currentRoom = some pin → lookupL s.rooms pin = some room →
      stepF s (Req.sendMessage c m) =
        ({ s with rooms := insertL s.rooms pin { room with messages := room.messages ++ [m] } },
         [Ev.receiveMessage pin m])) := by
  refine ⟨?_, ?_, ?_⟩
  · intro hcur
    show handleSend s c m = _
    simp only [handleSend, hcur]
  · intro pin hcur hroom
    show handleSend s c m = _
    simp only [handleSend, hcur, hroom]
  · intro pin room hcur hroom
    show handleSend s c m = _
    simp only [handleSend, hcur, hroom]

/-- C7 witness: on a freshly started server (no current room) a
`send_message` is dropped with no event and no state change. -/
theorem c7_send_silent_drop_witness :
    stepF (initState [] 0) (Req.sendMessage 1 msgA) = (initState [] 0, []) :=
  (c7_send_silent_drop (initState [] 0) 1 msgA).1 rfl

/-- C8 counterexample: `create_room` with `maxParticipants = 100` in the
request yields a live room whose `maxParticipants` is 100, outside 2..10 --
the server stores `maxParticipants || 5` without range-checking. -/
theorem c8_counterexample :
    (lookupL c8State.rooms 100000).map Room.maxParticipants = some 100 ∧
    ¬ (100 ≤ 10) :=
  ⟨rfl, by omega⟩

/-- C8 (amended): a created room's `maxParticipants` is exactly the value
supplied in the request, with 5 substituted when the supplied value is 0
(JS `maxParticipants || 5`), and it is immutable: no server step changes a
surviving room's `maxParticipants`. The 2..10 range is enforced only by the
client's input control, not by the server. -/
theorem c8_max_participants (s : ServerState) :
    (∀ c maxP rn n pin rest,
      generateUniquePin s.rooms s.randStream = some (pin, rest) →
      lookupL (stepF s (Req.createRoom c maxP rn n)).1.rooms pin =
        some { number := orDefault rn "Sin número",
               participants := [(c, n)],
               maxParticipants := if maxP = 0 then 5 else maxP,
               messages := [] }) ∧
    (∀ r p room room', lookupL s.rooms p = some room →
      lookupL (stepF s r).1.rooms p = some room' →
      room'.maxParticipants = room.maxParticipants) := by
  constructor
  · intro c maxP rn n pin rest halloc
    have hstep : (stepF s (Req.createRoom c maxP rn n)).1.rooms =
        insertL s.rooms pin
          { number := orDefault rn "Sin número",
            participants := [(c, n)],
            maxParticipants := if maxP = 0 then 5 else maxP,
            messages := [] } := by
      show (handleCreate s c maxP rn n).1.rooms = _
      simp only [handleCreate, halloc]
      rfl
    rw [hstep]
    exact lookupL_insertL_self _ _ _
  · intro r p room room' h h'
    exact (step_room_stable s r p room room' h h').1

/-- C8 witness: the creation clause evaluated on a concrete request with
`maxParticipants = 100`. -/
theorem c8_max_participants_witness :
    lookupL (stepF (run (initState [0] 0) [Req.connect 1])
        (Req.createRoom 1 100 "7" "a")).1.rooms 100000 =
      some { number := "7", participants := [(1, "a")], maxParticipants := 100,
             messages := [] } :=
  (c8_max_participants (run (initState [0] 0) [Req.connect 1])).1 1 100 "7" "a" 100000 [] rfl

/-- C9 counterexample: pin 12345 -- the 6-digit string "012345" with its
leading zero -- is free in the empty registry yet can never be returned by
the allocator, whose samples all lie in 100000..999999. -/
theorem c9_counterexample :
    lookupL (initState [] 0).rooms 12345 = none ∧
    ¬ ∃ stream rest,
        generateUniquePin (initState [] 0).rooms stream = some (12345, rest) := by
  refine ⟨rfl, ?_⟩
  rintro ⟨stream, rest, h⟩
  have := (generateUniquePin_range h).1
  omega

/-- C9 (amended): the allocator samples
`Math.floor(100000 + Math.random() * 900000)`, i.e. uniformly over
100000..999999 with NO leading-zero pins; every sample is in that range, any
successfully allocated pin is free, and every in-range value that is free is
a possible result (witnessed by the random draw `v - 100000`), the loop
rejecting collisions until a free pin is found. -/
theorem c9_allocator_range (rooms : List (Nat × Room)) (v : Nat)
    (h1 : 100000 ≤ v) (h2 : v ≤ 999999) (hfree : lookupL rooms v = none) :
    (∀ r, 100000 ≤ samplePin r ∧ samplePin r ≤ 999999) ∧
    (∀ stream pin rest, generateUniquePin rooms stream = some (pin, rest) →
      lookupL rooms pin = none ∧ 100000 ≤ pin ∧ pin ≤ 999999) ∧
    generateUniquePin rooms [v - 100000] = some (v, []) := by
  refine ⟨fun r => ⟨samplePin_ge r, samplePin_le r⟩,
    fun stream pin rest h => ⟨generateUniquePin_fresh h, generateUniquePin_range h⟩, ?_⟩
  have hs : samplePin (v - 100000) = v := by
    unfold samplePin
    have : v - 100000 < 900000 := by omega
    rw [Nat.mod_eq_of_lt this]
    omega
  have hfalse : hasL rooms v = false := by
    simp [hasL, hfree]
  simp only [generateUniquePin, hs, hfalse, Bool.false_eq_true, if_false]

/-- C9 witness: on an empty registry the free in-range pin 123456 is indeed
produced from the draw 23456. -/
theorem c9_allocator_range_witness :
    generateUniquePin ([] : List (Nat × Room)) [23456] = some (123456, []) :=
  (c9_allocator_range [] 123456 (by omega) (by omega) rfl).2.2

/-- C10: a connection that is already a participant of room `pin` may join
again while the room is below capacity: the join succeeds, the participant
count stays the same (its map entry is overwritten with the new nickname),
and the usual side effects fire (history replay to the requester, the
participant list twice, `user_joined`, `available_rooms`); at capacity the
rejoin is rejected with the room-full error even though it would not grow
the room. -/
theorem c10_rejoin (s : ServerState) (c pin : Nat) (nick : String) (room : Room)
    (hroom : lookupL s.rooms pin = some room)
    (hmem : hasL room.participants c = true) :
    (room.participants.length < room.maxParticipants →
      lookupL (stepF s (Req.joinRoom c pin nick)).1.rooms pin =
        some { room with participants := insertL room.participants c nick } ∧
      (insertL room.participants c nick).length = room.participants.length ∧
      lookupL (insertL room.participants c nick) c = some nick ∧
      (stepF s (Req.joinRoom c pin nick)).2 =
        [Ev.roomHistory c room.messages,
         Ev.roomParticipants (Target.room pin)
           ((insertL room.participants c nick).map (fun e => e.2)),
         Ev.roomParticipants (Target.room pin)
           ((insertL room.participants c nick).map (fun e => e.2)),
         Ev.userJoined pin nick (orDefault room.number "Sin número")
           (insertL room.participants c nick).length room.maxParticipants,
         Ev.availableRooms Target.all
           (getAvailableRooms (insertL s.rooms pin
             { room with participants := insertL room.participants c nick }))]) ∧
    (room.maxParticipants ≤ room.participants.length →
      stepF s (Req.joinRoom c pin nick) = (s, [Ev.joinError c roomFullMsg])) := by
  constructor
  · intro hlt
    have hstep : stepF s (Req.joinRoom c pin nick) = joinSuccess s c pin nick room := by
      show handleJoin s c pin nick = _
      simp only [handleJoin, hroom]
      rw [if_neg (not_le.mpr hlt)]
    rw [hstep]
    refine ⟨lookupL_insertL_self _ _ _, ?_, lookupL_insertL_self _ _ _, rfl⟩
    rw [length_insertL, if_pos hmem]
  · intro hfull
    show handleJoin s c pin nick = _
    simp only [handleJoin, hroom]
    rw [if_pos hfull]

/-- C10 witness: bob (already a member of the full room 100000 in
`demoFull`) is rejected with the room-full error when he rejoins. -/
theorem c10_rejoin_witness :
    stepF demoFull (Req.joinRoom 2 100000 "bobby") =
      (demoFull, [Ev.joinError 2 roomFullMsg]) :=
  (c10_rejoin demoFull 2 100000 "bobby" demoRoom rfl rfl).2 (by decide)

/-- C3: on the concrete run `c3Trace`, after the last participant leaves,
connection 2's one-shot deletion timer is armed with expiry `now + 30000`;
with no rejoin, once the grace period has elapsed the timer fires and the
room is gone from the registry (and the timer is spent); but when
connection 1 rejoins the pin before expiry, the room and its full message
history survive WHILE THE PENDING TIMER IS NOT CANCELLED (it belongs to
connection 2's private `roomTimers` map, which connection 1's join never
consults); the stale timer later fires without deleting the occupied room
only because the expiry callback re-checks emptiness. -/
theorem c3_cross_connection_rejoin :
    c3Empty.liveTimers = [{ tid := 0, owner := 2, pin := 100000, expiry := 30000 }] ∧
    lookupL c3Expired.rooms 100000 = none ∧
    c3Expired.liveTimers = [] ∧
    c3Rejoined.liveTimers = [{ tid := 0, owner := 2, pin := 100000, expiry := 30000 }] ∧
    lookupL c3Rejoined.rooms 100000 =
      some { number := "7", participants := [(1, "alice")], maxParticipants := 2,
             messages := [msgA] } ∧
    lookupL (run c3Rejoined [Req.elapse 30000, Req.fire 0]).rooms 100000 =
      some { number := "7", participants := [(1, "alice")], maxParticipants := 2,
             messages := [msgA] } :=
  ⟨rfl, rfl, rfl, rfl, rfl, rfl⟩

/-- C4: on the concrete run behind `c4State`, connection 1 and connection 2
each armed a deletion timer for pin 100000 and both timers are live at the
same instant -- the claimed at-most-one-timer-per-pin invariant fails
because each connection keeps its own `roomTimers` map, so connection 2's
arming never cancels connection 1's timer. -/
theorem c4_two_timers_same_pin :
    c4State.liveTimers =
      [{ tid := 0, owner := 1, pin := 100000, expiry := 30000 },
       { tid := 1, owner := 2, pin := 100000, expiry := 30000 }] ∧
    c4State.liveTimers.map Timer.pin = [100000, 100000] :=
  ⟨rfl, rfl⟩

end ChatServer
